import Mathlib

/-!
Verification of the `count-docs` package API analyzer (`src/analyze.js`).

The development shallowly embeds the parts of `analyze.js` that the
specification talks about:

* JavaScript strings are modelled as `List Char` (`JsString`); JavaScript
  `Set` objects (insertion-ordered, membership-deduplicated) are modelled as
  duplicate-free lists built with `setAdd`.
* file paths are modelled as already-resolved absolute path strings
  (`path.resolve` normalization is outside the model; every path literal in a
  theorem is written in normalized form).
* the TypeScript checker, the babel parser and the doctrine parser are the
  external collaborators of the spec; their outputs (symbol tables, syntax
  nodes, doc validity) are inputs of the embedded functions.
-/

set_option autoImplicit false

namespace CountDocs

/-! ## JavaScript primitives -/

/-- JavaScript strings, modelled by their character sequences. -/
abbrev JsString := List Char

/-- One `Set.add` call on an insertion-ordered JavaScript `Set`:
append the element unless it is already present. -/
def setAdd {α : Type} [DecidableEq α] (s : List α) (x : α) : List α :=
  if x ∈ s then s else s ++ [x]

/-- The list `[...new Set(l)]`: deduplicate `l`, keeping the first
occurrence of each element, in first-occurrence order. -/
def jsSetOfList {α : Type} [DecidableEq α] (l : List α) : List α :=
  l.foldl setAdd []

/-- JavaScript `String.prototype.includes`: `pat` occurs contiguously in `s`. -/
def jsIncludes (s pat : JsString) : Bool :=
  s.tails.any (fun t => pat.isPrefixOf t)

/-- JavaScript `String.prototype.startsWith`. -/
def jsStartsWith (s pre : JsString) : Bool :=
  pre.isPrefixOf s

theorem mem_setAdd {α : Type} [DecidableEq α] (s : List α) (y x : α) :
    x ∈ setAdd s y ↔ x ∈ s ∨ x = y := by
  unfold setAdd
  by_cases h : y ∈ s
  · rw [if_pos h]
    constructor
    · tauto
    · rintro (hx | rfl) <;> [exact hx; exact h]
  · rw [if_neg h]
    simp [List.mem_append]

theorem nodup_setAdd {α : Type} [DecidableEq α] (s : List α) (y : α)
    (h : s.Nodup) : (setAdd s y).Nodup := by
  unfold setAdd
  by_cases hy : y ∈ s
  · rwa [if_pos hy]
  · rw [if_neg hy]
    exact List.Nodup.append h (List.nodup_singleton y) (by simpa using hy)

theorem mem_foldl_setAdd {α : Type} [DecidableEq α] (l : List α) (acc : List α) (x : α) :
    x ∈ l.foldl setAdd acc ↔ x ∈ acc ∨ x ∈ l := by
  induction l generalizing acc with
  | nil => simp
  | cons a t ih =>
    simp only [List.foldl_cons]
    rw [ih, mem_setAdd, List.mem_cons]
    tauto

theorem nodup_foldl_setAdd {α : Type} [DecidableEq α] (l : List α) (acc : List α)
    (h : acc.Nodup) : (l.foldl setAdd acc).Nodup := by
  induction l generalizing acc with
  | nil => exact h
  | cons a t ih =>
    simp only [List.foldl_cons]
    exact ih _ (nodup_setAdd _ _ h)

theorem mem_jsSetOfList {α : Type} [DecidableEq α] (l : List α) (x : α) :
    x ∈ jsSetOfList l ↔ x ∈ l := by
  unfold jsSetOfList
  rw [mem_foldl_setAdd]
  simp

theorem nodup_jsSetOfList {α : Type} [DecidableEq α] (l : List α) :
    (jsSetOfList l).Nodup :=
  nodup_foldl_setAdd l [] List.nodup_nil

/-- Helper for the first-occurrence characterization of `jsSetOfList`: keep
elements not yet seen, in order, threading the set of seen elements. -/
def firstSeenDedupAux {α : Type} [DecidableEq α] : List α → List α → List α
  | [], _ => []
  | x :: xs, seen =>
    if x ∈ seen then firstSeenDedupAux xs seen
    else x :: firstSeenDedupAux xs (x :: seen)

/-- Deduplication keeping the first occurrence of each element in order:
the behaviour the spec ascribes to the aggregator's `all` list. -/
def firstSeenDedup {α : Type} [DecidableEq α] (l : List α) : List α :=
  firstSeenDedupAux l []

theorem foldl_setAdd_eq_append {α : Type} [DecidableEq α] (l : List α) :
    ∀ (acc seen : List α), (∀ x, x ∈ seen ↔ x ∈ acc) →
      l.foldl setAdd acc = acc ++ firstSeenDedupAux l seen := by
  induction l with
  | nil => intro acc seen _; simp [firstSeenDedupAux]
  | cons a t ih =>
    intro acc seen hmem
    simp only [List.foldl_cons, firstSeenDedupAux]
    by_cases ha : a ∈ seen
    · rw [if_pos ha, show setAdd acc a = acc from if_pos ((hmem a).mp ha)]
      exact ih acc seen hmem
    · have ha' : a ∉ acc := fun h => ha ((hmem a).mpr h)
      rw [if_neg ha, show setAdd acc a = acc ++ [a] from if_neg ha']
      rw [ih (acc ++ [a]) (a :: seen) (by intro x; rw [List.mem_cons, hmem x]; simp [or_comm])]
      simp

theorem jsSetOfList_eq_firstSeenDedup {α : Type} [DecidableEq α] (l : List α) :
    jsSetOfList l = firstSeenDedup l := by
  unfold jsSetOfList firstSeenDedup
  simpa using foldl_setAdd_eq_append l [] [] (by simp)

/-! ## TypeScript checker model

The checker is an external collaborator; a symbol is an opaque record of the
fields `analyze.js` reads: name, declaration list (with the source-file path
and the syntactic shape of each declaration site), value/type flag bits, the
alias flag with the alias-resolved target, and the aggregated documentation
comment parts. -/

/-- Shape of one declaration site, as tested by `isTypeOnlyExportSymbol`
(`analyze.js` lines 59-78).  For an export specifier,
`parentExportTypeOnly = some b` records that `decl.parent?.parent` exists and
is an export declaration whose `isTypeOnly` field is `b`; `none` records that
no enclosing export declaration is found there. -/
inductive TsDeclKind : Type
  | exportSpecifier (isTypeOnly : Bool) (parentExportTypeOnly : Option Bool)
  | exportDeclaration (isTypeOnly : Bool)
  | otherDeclaration
deriving DecidableEq

/-- One entry of `symbol.declarations`: its syntactic shape and the
(already-resolved) path of its source file (`decl.getSourceFile().fileName`). -/
structure TsDeclaration : Type where
  kind : TsDeclKind
  fileName : JsString
deriving DecidableEq

/-- The checker-reported facts about a symbol that `parseTsFile` reads:
`hasValueFlag` models the truthiness of `flags & ts.SymbolFlags.Value`,
`hasTypeFlag` that of `flags & ts.SymbolFlags.Type`, and `docComments` the
text parts of `getDocumentationComment`. -/
structure TsSymbolCore : Type where
  name : JsString
  declarations : List TsDeclaration
  hasValueFlag : Bool
  hasTypeFlag : Bool
  docComments : List JsString
deriving DecidableEq

/-- An exported symbol: its own facts plus the alias facet.  `isAliasFlag`
models the truthiness of `flags & ts.SymbolFlags.Alias`;
`aliasedTarget = none` models `checker.getAliasedSymbol` returning nothing. -/
structure TsSymbol : Type where
  core : TsSymbolCore
  isAliasFlag : Bool
  aliasedTarget : Option TsSymbolCore
deriving DecidableEq

/-- Alias resolution of `parseTsFile` (lines 241-243):
`(symbol.flags & Alias) ? (checker.getAliasedSymbol(symbol) || symbol) : symbol`. -/
def aliasTarget (symbol : TsSymbol) : TsSymbolCore :=
  if symbol.isAliasFlag then symbol.aliasedTarget.getD symbol.core else symbol.core

/-- The path separator segment `` `${path.sep}node_modules${path.sep}` ``
(line 54), with `path.sep = '/'`. -/
def nodeModulesSegment : JsString := "/node_modules/".data

/-- Transcription of `symbolBelongsToPackage` (lines 46-57).  A missing
symbol, a missing package root, or an empty declaration list yields `true`;
otherwise some declaration site must start with the normalized root and not
contain a `/node_modules/` segment.  (The two-step body
`if (!startsWith) return false; return !includes` is the short-circuit
conjunction written here.) -/
def symbolBelongsToPackage (symbol : Option TsSymbolCore)
    (packageRoot : Option JsString) : Bool :=
  match symbol, packageRoot with
  | none, _ => true
  | some _, none => true
  | some s, some root =>
    if s.declarations.isEmpty then true
    else s.declarations.any fun decl =>
      jsStartsWith decl.fileName root && !(jsIncludes decl.fileName nodeModulesSegment)

/-- The per-declaration condition checked inside the loop of
`isTypeOnlyExportSymbol`: an export specifier passes when it is type-only
itself or its enclosing export declaration is type-only (line 66); an export
declaration passes when it is type-only (line 72); any other declaration
shape fails (line 75). -/
def typeOnlySite : TsDeclKind → Bool
  | .exportSpecifier isTypeOnly parentExportTypeOnly =>
      isTypeOnly || parentExportTypeOnly.getD false
  | .exportDeclaration isTypeOnly => isTypeOnly
  | .otherDeclaration => false

/-- Transcription of `isTypeOnlyExportSymbol` (lines 59-78).  The JS loop
either returns `false` early (at the first declaration failing
`typeOnlySite`) or falls through returning `sawSpecifier`, which is `true`
exactly when the declaration list is nonempty, since every completed loop
iteration sets it; so the function equals: nonempty, and every declaration
site passes `typeOnlySite`. -/
def isTypeOnlyExportSymbol (symbol : Option TsSymbolCore) : Bool :=
  match symbol with
  | none => false
  | some s =>
    if s.declarations.isEmpty then false
    else s.declarations.all fun decl => typeOnlySite decl.kind

/-- Transcription of `hasValidJSDoc` (lines 22-33).  The comment parts are
joined with a newline; a whitespace-only join fails (`trim().length === 0`);
otherwise doctrine decides — the doctrine parser (description-or-tags rule
plus its catch clause) is the external doc-validity oracle of the spec,
passed in as `doctrineOracle`. -/
def hasValidJSDoc (doctrineOracle : JsString → Bool) (comments : List JsString) : Bool :=
  if comments.isEmpty then false
  else
    let docText := List.intercalate ("\n".data) comments
    if docText.all (fun c => c.isWhitespace) then false
    else doctrineOracle docText

/-! ## Result object model -/

/-- One category bucket of the `results` object (line 485): the three name
lists and the three derived counts. -/
structure Bucket : Type where
  total : Nat
  undocumented : Nat
  documented : Nat
  list : List JsString
  undocumentedList : List JsString
  documentedList : List JsString
deriving DecidableEq

/-- The initial bucket `{ total: 0, undocumented: 0, documented: 0, list: [],
undocumentedList: [], documentedList: [] }`. -/
def emptyBucket : Bucket :=
  { total := 0, undocumented := 0, documented := 0
    list := [], undocumentedList := [], documentedList := [] }

/-- The `results` record (lines 483-490), restricted to the fields the
claims are about. -/
structure Results : Type where
  js : Bucket
  ts : Bucket
  mf : Bucket
  reExports : List JsString
  reExportedApis : List JsString
  errors : List JsString
deriving DecidableEq

/-- The freshly initialized `results` object. -/
def emptyResults : Results :=
  { js := emptyBucket, ts := emptyBucket, mf := emptyBucket
    reExports := [], reExportedApis := [], errors := [] }

/-- The push pattern shared by every extractor site
(e.g. lines 259-263): push the name onto `list` and onto exactly one of
`documentedList` / `undocumentedList` according to the doc check. -/
def pushExport (b : Bucket) (apiName : JsString) (hasDocs : Bool) : Bucket :=
  { b with
    list := b.list ++ [apiName]
    undocumentedList := if hasDocs then b.undocumentedList else b.undocumentedList ++ [apiName]
    documentedList := if hasDocs then b.documentedList ++ [apiName] else b.documentedList }

/-- Transcription of the body of the `exports.forEach` callback of
`parseTsFile` (lines 237-269): skip `__`-prefixed names, resolve the alias,
register externally-originated names, detect type-only export status,
check docs, and push into the `js` (value) and/or `ts` (type) bucket. -/
def processExportSymbol (doctrineOracle : JsString → Bool)
    (packageRoot : Option JsString) (r : Results) (symbol : TsSymbol) : Results :=
  if jsStartsWith symbol.core.name ("__".data) then r
  else
    let apiName := symbol.core.name
    let targetSymbol := aliasTarget symbol
    let isInternalSymbol := symbolBelongsToPackage (some targetSymbol) packageRoot
    let r1 := if isInternalSymbol then r
      else { r with reExportedApis := setAdd r.reExportedApis apiName }
    let typeOnlyExport := isTypeOnlyExportSymbol (some symbol.core)
    let hasDocs := hasValidJSDoc doctrineOracle targetSymbol.docComments
    let isValue := !typeOnlyExport && targetSymbol.hasValueFlag
    let isType := typeOnlyExport || targetSymbol.hasTypeFlag
    let r2 := if isValue then { r1 with js := pushExport r1.js apiName hasDocs } else r1
    if isType then { r2 with ts := pushExport r2.ts apiName hasDocs } else r2

/-- Transcription of the aggregation closure `processResults` (lines
548-560), acting on one bucket:
`[...new Set(list)]`, `[...new Set(documentedList)]`, and
`[...new Set(undocumentedList)].filter(name => !docSet.has(name))`,
with the counts taken from the lengths of the final lists. -/
def processResults (b : Bucket) : Bucket :=
  let uniqueList := jsSetOfList b.list
  let uniqueDocs := jsSetOfList b.documentedList
  let uniqueUndocumented :=
    (jsSetOfList b.undocumentedList).filter (fun n => !(decide (n ∈ uniqueDocs)))
  { list := uniqueList
    documentedList := uniqueDocs
    undocumentedList := uniqueUndocumented
    total := uniqueList.length
    documented := uniqueDocs.length
    undocumented := uniqueUndocumented.length }

/-- One raw push event: an export name together with its doc-check outcome. -/
def pushExportEvent (b : Bucket) (e : JsString × Bool) : Bucket :=
  pushExport b e.1 e.2

/-- A whole run's worth of raw pushes into one bucket, in order; each
extractor call contributes the pushes it performs on that bucket. -/
def applyPushes (b : Bucket) (events : List (JsString × Bool)) : Bucket :=
  events.foldl pushExportEvent b

theorem mem_pushExport_list (b : Bucket) (n : JsString) (d : Bool) (x : JsString) :
    x ∈ (pushExport b n d).list ↔ x ∈ b.list ∨ x = n := by
  simp [pushExport]

theorem mem_pushExport_documented (b : Bucket) (n : JsString) (d : Bool) (x : JsString) :
    x ∈ (pushExport b n d).documentedList ↔ x ∈ b.documentedList ∨ (d = true ∧ x = n) := by
  cases d <;> simp [pushExport]

theorem mem_pushExport_undocumented (b : Bucket) (n : JsString) (d : Bool) (x : JsString) :
    x ∈ (pushExport b n d).undocumentedList ↔ x ∈ b.undocumentedList ∨ (d = false ∧ x = n) := by
  cases d <;> simp [pushExport]

theorem mem_applyPushes_list (events : List (JsString × Bool)) (b : Bucket) (x : JsString) :
    x ∈ (applyPushes b events).list ↔ x ∈ b.list ∨ (x, true) ∈ events ∨ (x, false) ∈ events := by
  induction events generalizing b with
  | nil => simp [applyPushes]
  | cons e t ih =>
    simp only [applyPushes, List.foldl_cons] at ih ⊢
    rw [ih, pushExportEvent, mem_pushExport_list]
    rcases e with ⟨n, d⟩
    cases d <;> (simp [Prod.ext_iff]; try tauto)

theorem mem_applyPushes_documented (events : List (JsString × Bool)) (b : Bucket) (x : JsString) :
    x ∈ (applyPushes b events).documentedList ↔
      x ∈ b.documentedList ∨ (x, true) ∈ events := by
  induction events generalizing b with
  | nil => simp [applyPushes]
  | cons e t ih =>
    simp only [applyPushes, List.foldl_cons] at ih ⊢
    rw [ih, pushExportEvent, mem_pushExport_documented]
    rcases e with ⟨n, d⟩
    cases d <;> (simp [Prod.ext_iff]; try tauto)

theorem mem_applyPushes_undocumented (events : List (JsString × Bool)) (b : Bucket) (x : JsString) :
    x ∈ (applyPushes b events).undocumentedList ↔
      x ∈ b.undocumentedList ∨ (x, false) ∈ events := by
  induction events generalizing b with
  | nil => simp [applyPushes]
  | cons e t ih =>
    simp only [applyPushes, List.foldl_cons] at ih ⊢
    rw [ih, pushExportEvent, mem_pushExport_undocumented]
    rcases e with ⟨n, d⟩
    cases d <;> (simp [Prod.ext_iff]; try tauto)

/-! ## Module resolver -/

/-- Model of `path.resolve(baseDir, relativePath)` for a normalized relative
specifier against an absolute base directory: join with a separator.
(`path.resolve` normalization of `.` and `..` segments is outside the model;
all concrete paths in theorems are written normalized.) -/
def pathResolve (baseDir relativePath : JsString) : JsString :=
  baseDir ++ ("/".data) ++ relativePath

/-- Model of `path.join(a, b)` for a plain file-name second component. -/
def pathJoin (a b : JsString) : JsString :=
  a ++ ("/".data) ++ b

/-- Transcription of `resolveModulePath` (lines 84-102).  `isFile p` models
`await fs.pathExists(p) && (await fs.stat(p)).isFile()`; the three
first-hit-wins loops become `find?` over the extension list. -/
def resolveModulePath (isFile : JsString → Bool) (baseDir relativePath : JsString)
    (extensions : List JsString) : Option JsString :=
  let absolutePath := pathResolve baseDir relativePath
  match extensions.find? (fun ext => isFile (absolutePath ++ ext)) with
  | some ext => some (absolutePath ++ ext)
  | none =>
    match extensions.find? (fun ext => isFile (pathJoin absolutePath (("index".data) ++ ext))) with
    | some ext => some (pathJoin absolutePath (("index".data) ++ ext))
    | none => if isFile absolutePath then some absolutePath else none

/-- The candidate list in the order the spec states it: suffixed paths in
extension order, then index files in extension order, then the verbatim
path.  The spec-side contract of the resolver is the first existing
candidate of this list. -/
def resolveCandidates (baseDir relativePath : JsString)
    (extensions : List JsString) : List JsString :=
  let absolutePath := pathResolve baseDir relativePath
  extensions.map (fun ext => absolutePath ++ ext)
    ++ extensions.map (fun ext => pathJoin absolutePath (("index".data) ++ ext))
    ++ [absolutePath]

/-! ## Exposure heuristic -/

/-- A property of a babel `ObjectExpression` node, as read by
`isExposesObject` (lines 349-364): an `ObjectProperty` carries
`prop.key.name || prop.key.value` (`none` when neither yields a usable
string); every other property shape (spread elements, methods) is opaque. -/
inductive BabelProp : Type
  | objectProperty (keyName : Option JsString)
  | otherProperty
deriving DecidableEq

/-- The `prop.type === 'ObjectProperty'` test. -/
def isObjectProperty : BabelProp → Bool
  | .objectProperty _ => true
  | .otherProperty => false

/-- The `keyName && keyName.startsWith('./')` test of line 358 (an empty
key string is falsy in JS, but also fails `startsWith('./')`, so the model
may carry it as `some` without changing the count). -/
def exposeLikeKey : BabelProp → Bool
  | .objectProperty (some k) => jsStartsWith k ("./".data)
  | .objectProperty none => false
  | .otherProperty => false

/-- Transcription of `isExposesObject` (lines 349-364).  The JS comparison
`exposeLikeKeys / totalKeys > 0.5` is a double-precision division of two
property counts; for counts below `2^26` it is exact enough to coincide
with the rational comparison, i.e. with `totalKeys < 2 * exposeLikeKeys`. -/
def isExposesObject (properties : List BabelProp) : Bool :=
  if properties.isEmpty then false
  else
    let totalKeys := (properties.filter isObjectProperty).length
    let exposeLikeKeys := (properties.filter exposeLikeKey).length
    decide (0 < totalKeys) && decide (totalKeys < 2 * exposeLikeKeys)

/-- The spec-side wording of the heuristic: at least one
string-or-identifier key, and strictly more than half of the keys begin
with `./` — stated with an exact rational ratio. -/
def exposesObjectSpec (properties : List BabelProp) : Prop :=
  0 < (properties.filter isObjectProperty).length ∧
    (1 : ℚ) / 2 <
      ((properties.filter exposeLikeKey).length : ℚ) /
        ((properties.filter isObjectProperty).length : ℚ)

/-! ## Graph walker -/

/-- The state of the traversal loop of `main` (lines 520-539): `queue`
models the insertion-ordered `fileQueue` set, `processed` the
`processedFiles` set.  `dispatched` is the observation trace of files
handed to an extractor (`parseJsFile`/`parseTsFile`); the code adds to
`processedFiles` exactly at dispatch, so this trace is recorded alongside. -/
structure WalkState (α : Type) : Type where
  queue : List α
  processed : List α
  dispatched : List α
deriving DecidableEq

/-- One iteration of the `while (fileQueue.size > 0)` loop (lines 521-539):
take the oldest queue element (`values().next().value`), delete it, skip it
when already processed, otherwise mark it processed, dispatch it, and union
the extractor's discovered files back into the queue (`fileQueue.add`).
`graph f` models the `newFilesToAnalyze` set the extractor returns for
file `f`. -/
def walkStep {α : Type} [DecidableEq α] (graph : α → List α)
    (s : WalkState α) : WalkState α :=
  match s.queue with
  | [] => s
  | currentFile :: rest =>
    if currentFile ∈ s.processed then { s with queue := rest }
    else
      { queue := (graph currentFile).foldl setAdd rest
        processed := s.processed ++ [currentFile]
        dispatched := s.dispatched ++ [currentFile] }

/-- The whole loop, fuelled: run `walkStep` while the queue is nonempty,
at most `fuel` times.  (The JS loop terminates because the filesystem is
finite; the fuel makes the model total without changing any finite run.) -/
def walkRun {α : Type} [DecidableEq α] (graph : α → List α) :
    Nat → WalkState α → WalkState α
  | 0, s => s
  | Nat.succ n, s =>
    match s.queue with
    | [] => s
    | _ :: _ => walkRun graph n (walkStep graph s)

/-! ## Phase ordering of discovery-mode exposure scanning

`parseMfExports` (lines 308-407) scans build-configuration files inside a
synchronous babel visitor; on a hit the visitor calls the `async` helper
`processExposesObject` (line 387) without awaiting the returned promise.
The helper pushes its exposure records synchronously, then suspends at
`await fs.pathExists` (line 341) before `fileQueue.add` (line 342).  `main`
awaits `parseMfExports` (line 510) and then enters the traversal loop
(line 521).  The model below records the happens-before edges this code
establishes between four observable actions and calls a schedule valid when
it linearizes the actions consistently with those edges. -/

/-- The four observable actions of one discovery-mode run that finds an
exposure map with one existing string-valued target. -/
inductive MfAction : Type
  | exposureScanStart
  | mfParseDone
  | firstDequeue
  | exposureTargetEnqueue
deriving DecidableEq

/-- All four actions, each occurring once. -/
def mfActions : List MfAction :=
  [.exposureScanStart, .mfParseDone, .firstDequeue, .exposureTargetEnqueue]

/-- Happens-before edges read off the code: the visitor body (including the
synchronous start of `processExposesObject`) runs inside `parseMfExports`
before it returns; the `fileQueue.add` continuation runs after its own
start; and `main` awaits `parseMfExports` before its loop performs the
first dequeue.  There is no edge from `exposureTargetEnqueue` to
`firstDequeue`: the promise of the line-387 call is dropped, so nothing
orders its continuation before the traversal. -/
def mfHappensBefore : List (MfAction × MfAction) :=
  [(.exposureScanStart, .mfParseDone),
   (.exposureScanStart, .exposureTargetEnqueue),
   (.mfParseDone, .firstDequeue)]

/-- The additional edge an awaited call would add (this is exactly how the
explicit-exposures path behaves: line 504 awaits
`processExposesObjectLiteral` before the loop starts). -/
def mfHappensBeforeAwaited : List (MfAction × MfAction) :=
  mfHappensBefore ++ [(.exposureTargetEnqueue, .firstDequeue)]

/-- A schedule is an execution order of the four actions consistent with a
given happens-before edge list. -/
def validMfSchedule (edges : List (MfAction × MfAction)) (l : List MfAction) : Prop :=
  l.Perm mfActions ∧ ∀ e ∈ edges, l.indexOf e.1 < l.indexOf e.2

/-! ## Walker invariants -/

theorem walkStep_dispatch_inv {α : Type} [DecidableEq α] (graph : α → List α)
    (s : WalkState α)
    (h1 : s.dispatched.Nodup) (h2 : ∀ x, x ∈ s.dispatched ↔ x ∈ s.processed) :
    (walkStep graph s).dispatched.Nodup ∧
      (∀ x, x ∈ (walkStep graph s).dispatched ↔ x ∈ (walkStep graph s).processed) := by
  obtain ⟨q, p, d⟩ := s
  cases q with
  | nil => exact ⟨h1, h2⟩
  | cons c rest =>
    by_cases hc : c ∈ p
    · simpa [walkStep, hc] using ⟨h1, h2⟩
    · have hcd : c ∉ d := fun h => hc ((h2 c).mp h)
      refine ⟨?_, ?_⟩
      · simp only [walkStep, if_neg hc]
        simp only [List.nodup_append, List.nodup_singleton, true_and]
        exact ⟨h1, by simpa using hcd⟩
      · intro x
        simp only [walkStep, if_neg hc, List.mem_append, List.mem_singleton]
        rw [h2 x]

theorem walkRun_dispatch_inv {α : Type} [DecidableEq α] (graph : α → List α)
    (fuel : Nat) :
    ∀ s : WalkState α, s.dispatched.Nodup →
      (∀ x, x ∈ s.dispatched ↔ x ∈ s.processed) →
      (walkRun graph fuel s).dispatched.Nodup := by
  induction fuel with
  | zero => intro s h1 _; exact h1
  | succ n ih =>
    intro s h1 h2
    unfold walkRun
    cases hq : s.queue with
    | nil => exact h1
    | cons c rest =>
      obtain ⟨g1, g2⟩ := walkStep_dispatch_inv graph s h1 h2
      exact ih _ g1 g2

theorem walkStep_rediscover_inv {α : Type} [DecidableEq α] (graph : α → List α)
    (s : WalkState α) (h1 : s.queue.Nodup)
    (h2 : ∀ x, x ∈ s.queue → x ∈ s.processed →
      ∃ d, d ∈ s.dispatched ∧ x ∈ graph d) :
    (walkStep graph s).queue.Nodup ∧
      ∀ x, x ∈ (walkStep graph s).queue → x ∈ (walkStep graph s).processed →
        ∃ d, d ∈ (walkStep graph s).dispatched ∧ x ∈ graph d := by
  obtain ⟨q, p, d⟩ := s
  cases q with
  | nil => exact ⟨h1, h2⟩
  | cons c rest =>
    obtain ⟨hcr, hrest⟩ := List.nodup_cons.mp h1
    by_cases hc : c ∈ p
    · refine ⟨by simpa [walkStep, hc] using hrest, ?_⟩
      intro x hx hxp
      simp only [walkStep, if_pos hc] at hx hxp ⊢
      exact h2 x (List.mem_cons_of_mem c hx) hxp
    · refine ⟨?_, ?_⟩
      · simp only [walkStep, if_neg hc]
        exact nodup_foldl_setAdd _ _ hrest
      · intro x hx hxp
        simp only [walkStep, if_neg hc] at hx hxp ⊢
        rw [mem_foldl_setAdd] at hx
        rcases hx with hx | hx
        · rcases List.mem_append.mp hxp with hxp | hxp
          · obtain ⟨w, hw, hwg⟩ := h2 x (List.mem_cons_of_mem c hx) hxp
            exact ⟨w, List.mem_append_left _ hw, hwg⟩
          · rcases List.mem_singleton.mp hxp with rfl
            exact absurd hx hcr
        · exact ⟨c, by simp, hx⟩

theorem walkRun_rediscover_inv {α : Type} [DecidableEq α] (graph : α → List α)
    (fuel : Nat) :
    ∀ s : WalkState α, s.queue.Nodup →
      (∀ x, x ∈ s.queue → x ∈ s.processed →
        ∃ d, d ∈ s.dispatched ∧ x ∈ graph d) →
      (walkRun graph fuel s).queue.Nodup ∧
        ∀ x, x ∈ (walkRun graph fuel s).queue →
          x ∈ (walkRun graph fuel s).processed →
          ∃ d, d ∈ (walkRun graph fuel s).dispatched ∧ x ∈ graph d := by
  induction fuel with
  | zero => intro s h1 h2; exact ⟨h1, h2⟩
  | succ n ih =>
    intro s h1 h2
    unfold walkRun
    cases hq : s.queue with
    | nil => exact ⟨h1, h2⟩
    | cons c rest =>
      obtain ⟨g1, g2⟩ := walkStep_rediscover_inv graph s h1 h2
      exact ih _ g1 g2

/-- The two-file cyclic module graph: file `0` re-exports from file `1` and
file `1` re-exports from file `0`. -/
def cycleGraph : Nat → List Nat :=
  fun n => if n = 0 then [1] else if n = 1 then [0] else []

/-- Claim C5: over a whole run, every file path is dispatched to an
extractor at most once, no matter how often it is enqueued or through how
many import paths it is reached: the trace of dispatched files of any
fuelled run started on any initial worklist has no duplicates, because of
the processed-set membership test before dispatch. -/
theorem walkRun_dispatches_each_file_at_most_once {α : Type} [DecidableEq α]
    (graph : α → List α) (fuel : Nat) (q0 : List α) :
    (walkRun graph fuel ⟨q0, [], []⟩).dispatched.Nodup :=
  walkRun_dispatch_inv graph fuel ⟨q0, [], []⟩ List.nodup_nil (by simp)

/-- Claim C2 counterexample: after two iterations of the walk on the cyclic
graph `0 ↔ 1` started from worklist `[0]`, file `0` is simultaneously in
the worklist (re-discovered by processing file `1`) and in the processed
set, so `Worklist ∩ Processed = ∅` does not hold after every loop
iteration. -/
theorem walk_disjointness_counterexample :
    0 ∈ (walkRun cycleGraph 2 ⟨[0], [], []⟩).queue ∧
      0 ∈ (walkRun cycleGraph 2 ⟨[0], [], []⟩).processed := by
  decide

/-- Claim C2, amended: the worklist and the processed set need not stay
disjoint once newly discovered files are unioned back — what holds instead
is that every file in their intersection is a file some already-dispatched
file discovered again (and such files are skipped, never re-dispatched,
when dequeued). -/
theorem walk_intersection_only_rediscovered_files {α : Type} [DecidableEq α]
    (graph : α → List α) (fuel : Nat) (q0 : List α) (hq : q0.Nodup) :
    ∀ x, x ∈ (walkRun graph fuel ⟨q0, [], []⟩).queue →
      x ∈ (walkRun graph fuel ⟨q0, [], []⟩).processed →
      ∃ d, d ∈ (walkRun graph fuel ⟨q0, [], []⟩).dispatched ∧ x ∈ graph d :=
  (walkRun_rediscover_inv graph fuel ⟨q0, [], []⟩ hq (by simp)).2

/-- Witness for the amended claim C2, at the cyclic two-file graph: the
hypotheses hold for the run of fuel 2 from worklist `[0]`, and the
re-discovered intersection element `0` is indeed discovered by the
dispatched file `1`. -/
theorem walk_intersection_only_rediscovered_files_witness :
    ∃ d, d ∈ (walkRun cycleGraph 2 ⟨[0], [], []⟩).dispatched ∧ 0 ∈ cycleGraph d :=
  walk_intersection_only_rediscovered_files cycleGraph 2 [0]
    (by decide) 0 (by decide) (by decide)

/-! ## Aggregation -/

theorem processResults_list (b : Bucket) :
    (processResults b).list = jsSetOfList b.list := rfl

theorem processResults_documentedList (b : Bucket) :
    (processResults b).documentedList = jsSetOfList b.documentedList := rfl

theorem processResults_undocumentedList (b : Bucket) :
    (processResults b).undocumentedList
      = (jsSetOfList b.undocumentedList).filter
          (fun n => !(decide (n ∈ jsSetOfList b.documentedList))) := rfl

/-- Claim C3: within one category bucket, any name pushed at least once as
documented and at least once as undocumented (in any order, by any
extractor) ends up, after aggregation, in the documented list and not in
the undocumented list. -/
theorem documented_wins (events : List (JsString × Bool)) (name : JsString)
    (hdoc : (name, true) ∈ events) (_hundoc : (name, false) ∈ events) :
    name ∈ (processResults (applyPushes emptyBucket events)).documentedList ∧
      name ∉ (processResults (applyPushes emptyBucket events)).undocumentedList := by
  have hmemdoc : name ∈ jsSetOfList (applyPushes emptyBucket events).documentedList := by
    rw [mem_jsSetOfList, mem_applyPushes_documented]
    exact Or.inr hdoc
  constructor
  · rw [processResults_documentedList]
    exact hmemdoc
  · rw [processResults_undocumentedList]
    intro hmem
    have h2 := (List.mem_filter.mp hmem).2
    simp only [Bool.not_eq_true', decide_eq_false_iff_not] at h2
    exact h2 hmemdoc

/-- Witness for claim C3: the name `f` pushed once undocumented and once
documented ends up only in the documented list. -/
theorem documented_wins_witness :
    ("f".data) ∈ (processResults (applyPushes emptyBucket
        [(("f".data), false), (("f".data), true)])).documentedList ∧
      ("f".data) ∉ (processResults (applyPushes emptyBucket
        [(("f".data), false), (("f".data), true)])).undocumentedList :=
  documented_wins [(("f".data), false), (("f".data), true)] ("f".data)
    (by decide) (by decide)

/-- Claim C4: for every raw push sequence into a category bucket, the
aggregated bucket has a duplicate-free `all` list in first-occurrence
order, disjoint documented and undocumented lists whose union (as sets)
equals the names of `all`, and counts equal to the lengths of the final
lists. -/
theorem bucket_aggregation_invariants (events : List (JsString × Bool)) :
    ((processResults (applyPushes emptyBucket events)).list
        = firstSeenDedup (applyPushes emptyBucket events).list
      ∧ (processResults (applyPushes emptyBucket events)).list.Nodup)
    ∧ (∀ x, ¬(x ∈ (processResults (applyPushes emptyBucket events)).documentedList ∧
          x ∈ (processResults (applyPushes emptyBucket events)).undocumentedList))
    ∧ (∀ x, x ∈ (processResults (applyPushes emptyBucket events)).list ↔
        (x ∈ (processResults (applyPushes emptyBucket events)).documentedList ∨
          x ∈ (processResults (applyPushes emptyBucket events)).undocumentedList))
    ∧ (processResults (applyPushes emptyBucket events)).total
        = (processResults (applyPushes emptyBucket events)).list.length
    ∧ (processResults (applyPushes emptyBucket events)).documented
        = (processResults (applyPushes emptyBucket events)).documentedList.length
    ∧ (processResults (applyPushes emptyBucket events)).undocumented
        = (processResults (applyPushes emptyBucket events)).undocumentedList.length := by
  refine ⟨⟨?_, ?_⟩, ?_, ?_, rfl, rfl, rfl⟩
  · rw [processResults_list, jsSetOfList_eq_firstSeenDedup]
  · rw [processResults_list]
    exact nodup_jsSetOfList _
  · intro x hx
    rw [processResults_undocumentedList] at hx
    have h2 := (List.mem_filter.mp hx.2).2
    simp only [Bool.not_eq_true', decide_eq_false_iff_not] at h2
    rw [processResults_documentedList] at hx
    exact h2 hx.1
  · intro x
    rw [processResults_list, processResults_documentedList,
      processResults_undocumentedList, mem_jsSetOfList, mem_applyPushes_list,
      mem_jsSetOfList, mem_applyPushes_documented]
    have hf : x ∈ (jsSetOfList (applyPushes emptyBucket events).undocumentedList).filter
          (fun n => !(decide (n ∈ jsSetOfList (applyPushes emptyBucket events).documentedList)))
        ↔ ((x, false) ∈ events ∧ ¬(x, true) ∈ events) := by
      rw [List.mem_filter]
      simp only [Bool.not_eq_true', decide_eq_false_iff_not, mem_jsSetOfList,
        mem_applyPushes_undocumented, mem_applyPushes_documented]
      simp [emptyBucket]
    rw [hf]
    simp only [emptyBucket, List.not_mem_nil, false_or]
    by_cases h : (x, true) ∈ events <;> simp [h]

/-! ## Exposure heuristic theorems -/

/-- An object literal with 10 property keys of which 6 start with `./`. -/
def exposeProps6of10 : List BabelProp :=
  [.objectProperty (some ("./a".data)), .objectProperty (some ("./b".data)),
   .objectProperty (some ("./c".data)), .objectProperty (some ("./d".data)),
   .objectProperty (some ("./e".data)), .objectProperty (some ("./f".data)),
   .objectProperty (some ("k1".data)), .objectProperty (some ("k2".data)),
   .objectProperty (some ("k3".data)), .objectProperty (some ("k4".data))]

/-- An object literal with 10 property keys of which 5 start with `./`. -/
def exposeProps5of10 : List BabelProp :=
  [.objectProperty (some ("./a".data)), .objectProperty (some ("./b".data)),
   .objectProperty (some ("./c".data)), .objectProperty (some ("./d".data)),
   .objectProperty (some ("./e".data)), .objectProperty (some ("k0".data)),
   .objectProperty (some ("k1".data)), .objectProperty (some ("k2".data)),
   .objectProperty (some ("k3".data)), .objectProperty (some ("k4".data))]

/-- Claim C7: an object literal qualifies as an exposure map exactly when it
has at least one string-or-identifier key and strictly more than half of
its keys begin with `./`; in particular 6 of 10 such keys qualify and 5 of
10 do not. -/
theorem exposes_heuristic_threshold :
    (∀ properties : List BabelProp,
        isExposesObject properties = true ↔ exposesObjectSpec properties)
    ∧ isExposesObject exposeProps6of10 = true
    ∧ isExposesObject exposeProps5of10 = false := by
  refine ⟨?_, by decide, by decide⟩
  intro properties
  unfold isExposesObject exposesObjectSpec
  by_cases hp : properties.isEmpty
  · rw [List.isEmpty_iff] at hp
    subst hp
    simp
  · rw [if_neg (by simpa using hp)]
    simp only [Bool.and_eq_true, decide_eq_true_eq]
    constructor
    · rintro ⟨ht, he⟩
      refine ⟨ht, ?_⟩
      have ht' : (0:ℚ) < ((properties.filter isObjectProperty).length : ℚ) := by
        exact_mod_cast ht
      rw [div_lt_div_iff₀ (by norm_num) ht', one_mul]
      have : ((properties.filter isObjectProperty).length : ℚ)
          < 2 * ((properties.filter exposeLikeKey).length : ℚ) := by exact_mod_cast he
      linarith
    · rintro ⟨ht, he⟩
      refine ⟨ht, ?_⟩
      have ht' : (0:ℚ) < ((properties.filter isObjectProperty).length : ℚ) := by
        exact_mod_cast ht
      rw [div_lt_div_iff₀ (by norm_num) ht', one_mul] at he
      have : ((properties.filter isObjectProperty).length : ℚ)
          < 2 * ((properties.filter exposeLikeKey).length : ℚ) := by linarith
      exact_mod_cast this

/-! ## Resolver theorems -/

/-- A filesystem on which both `b/x.a` and `b/x.b` exist as files. -/
def twoSuffixFs : JsString → Bool :=
  fun p => decide (p = ("b/x.a".data)) || decide (p = ("b/x.b".data))

theorem find?_map_lambda {α β : Type} (p : α → Bool) (f : β → α) (l : List β) :
    (l.map f).find? p = (l.find? (fun b => p (f b))).map f :=
  List.find?_map f l

/-- First-match-wins shape of the resolver body, over an arbitrary absolute
path and index-file stem. -/
theorem resolve_body_eq_find {isFile : JsString → Bool} (abs idx : JsString)
    (extensions : List JsString) :
    (match extensions.find? (fun ext => isFile (abs ++ ext)) with
      | some ext => some (abs ++ ext)
      | none =>
        match extensions.find? (fun ext => isFile (pathJoin abs (idx ++ ext))) with
        | some ext => some (pathJoin abs (idx ++ ext))
        | none => if isFile abs then some abs else none)
    = (extensions.map (fun ext => abs ++ ext)
        ++ extensions.map (fun ext => pathJoin abs (idx ++ ext))
        ++ [abs]).find? isFile := by
  rw [List.find?_append, List.find?_append, find?_map_lambda, find?_map_lambda]
  cases h1 : extensions.find? (fun ext => isFile (abs ++ ext)) with
  | some e => rfl
  | none =>
    cases h2 : extensions.find? (fun ext => isFile (pathJoin abs (idx ++ ext))) with
    | some e => rfl
    | none =>
      cases h3 : isFile abs with
      | true => simp [List.find?, h3]
      | false => simp [List.find?, h3]

/-- Claim C8: the resolver returns the first existing file among, in order,
the suffixed paths (in suffix-list order), the index files (in suffix-list
order), and the verbatim path, and returns `none` exactly when no candidate
exists — stated as equality with `find?` over the spec's candidate list.
In particular, with suffixes `[.a, .b]` and both `x.a` and `x.b` existing,
resolving `x` yields the `.a` path. -/
theorem resolver_first_match_wins :
    (∀ (isFile : JsString → Bool) (baseDir relativePath : JsString)
        (extensions : List JsString),
        resolveModulePath isFile baseDir relativePath extensions
          = (resolveCandidates baseDir relativePath extensions).find? isFile)
    ∧ resolveModulePath twoSuffixFs ("b".data) ("x".data) [(".a".data), (".b".data)]
        = some ("b/x.a".data) := by
  refine ⟨?_, by decide⟩
  intro isFile baseDir relativePath extensions
  exact resolve_body_eq_find (pathResolve baseDir relativePath) ("index".data) extensions

/-! ## TypeExtractor classification theorems -/

theorem processExportSymbol_typeOnly (o : JsString → Bool) (root : Option JsString)
    (r : Results) (sym : TsSymbol)
    (hname : jsStartsWith sym.core.name ("__".data) = false)
    (htype : isTypeOnlyExportSymbol (some sym.core) = true) :
    (processExportSymbol o root r sym).ts.list = r.ts.list ++ [sym.core.name]
      ∧ (processExportSymbol o root r sym).js = r.js := by
  unfold processExportSymbol
  rw [hname]
  simp only [Bool.false_eq_true, if_false, htype, Bool.not_true, Bool.false_and,
    Bool.true_or, if_true]
  constructor <;> split_ifs <;> simp [pushExport]

theorem processExportSymbol_reExportedApis (o : JsString → Bool)
    (root : Option JsString) (r : Results) (sym : TsSymbol)
    (hname : jsStartsWith sym.core.name ("__".data) = false) :
    (processExportSymbol o root r sym).reExportedApis
      = if symbolBelongsToPackage (some (aliasTarget sym)) root = true
        then r.reExportedApis else setAdd r.reExportedApis sym.core.name := by
  unfold processExportSymbol
  rw [hname]
  simp only [Bool.false_eq_true, if_false]
  split_ifs <;> rfl

/-- Claim C9: a symbol all of whose declaration sites are type-only export
specifiers (directly or through their enclosing type-only export clause) or
type-only export declarations is emitted as a Type record and never as a
Value record — whatever value-flag bits the alias-resolved target carries —
and any declaration site failing the type-only test (a "mix") disqualifies
type-only status. -/
theorem type_only_emits_type_record_only :
    (∀ (o : JsString → Bool) (root : Option JsString) (r : Results) (sym : TsSymbol),
        jsStartsWith sym.core.name ("__".data) = false →
        sym.core.declarations ≠ [] →
        (∀ decl ∈ sym.core.declarations, typeOnlySite decl.kind = true) →
        (processExportSymbol o root r sym).ts.list = r.ts.list ++ [sym.core.name]
          ∧ (processExportSymbol o root r sym).js = r.js)
    ∧ (∀ core : TsSymbolCore,
        isTypeOnlyExportSymbol (some core) = true ↔
          (core.declarations ≠ [] ∧
            ∀ decl ∈ core.declarations, typeOnlySite decl.kind = true)) := by
  have hiff : ∀ core : TsSymbolCore,
      isTypeOnlyExportSymbol (some core) = true ↔
        (core.declarations ≠ [] ∧
          ∀ decl ∈ core.declarations, typeOnlySite decl.kind = true) := by
    intro core
    have hred : isTypeOnlyExportSymbol (some core)
        = if core.declarations.isEmpty then false
          else core.declarations.all fun decl => typeOnlySite decl.kind := rfl
    rw [hred]
    by_cases hd : core.declarations.isEmpty
    · rw [if_pos hd, List.isEmpty_iff] at *
      simp [hd]
    · rw [if_neg hd]
      rw [Bool.not_eq_true, List.isEmpty_eq_false_iff_exists_mem] at hd
      obtain ⟨x, hx⟩ := hd
      rw [List.all_eq_true]
      constructor
      · intro h
        exact ⟨fun hnil => by simp [hnil] at hx, h⟩
      · intro h
        exact h.2
  refine ⟨?_, hiff⟩
  intro o root r sym hname hne hall
  exact processExportSymbol_typeOnly o root r sym hname
    ((hiff sym.core).mpr ⟨hne, hall⟩)

/-- An exported type-only alias of an interface: the symbol's only
declaration site is a type-only export specifier, while the alias-resolved
target carries value-flag bits. -/
def typeOnlyAliasSymbol : TsSymbol :=
  { core :=
      { name := "T".data
        declarations := [⟨.exportSpecifier true none, "/pkg/src/t.d.ts".data⟩]
        hasValueFlag := false
        hasTypeFlag := false
        docComments := [] }
    isAliasFlag := true
    aliasedTarget := some
      { name := "I".data
        declarations := [⟨.otherDeclaration, "/pkg/src/i.d.ts".data⟩]
        hasValueFlag := true
        hasTypeFlag := true
        docComments := [] } }

/-- Witness for claim C9 at `typeOnlyAliasSymbol`: the hypotheses hold and
the symbol lands in the `ts` (type) bucket only, with the `js` (value)
bucket untouched, although the target has the value flag set. -/
theorem type_only_emits_type_record_only_witness :
    (processExportSymbol (fun _ => false) (some ("/pkg".data)) emptyResults
        typeOnlyAliasSymbol).ts.list = emptyResults.ts.list ++ [("T".data)]
      ∧ (processExportSymbol (fun _ => false) (some ("/pkg".data)) emptyResults
          typeOnlyAliasSymbol).js = emptyResults.js :=
  type_only_emits_type_record_only.1 (fun _ => false) (some ("/pkg".data))
    emptyResults typeOnlyAliasSymbol (by decide) (by decide) (by decide)

/-- Claim C10: when the alias-resolved symbol has no declaration sites, or
the package-root path is unavailable, the origin test reports the symbol as
belonging to the package, so it is never added to the externally-originated
registry. -/
theorem no_declarations_or_no_root_is_internal (o : JsString → Bool)
    (root : Option JsString) (r : Results) (sym : TsSymbol)
    (h : (aliasTarget sym).declarations = [] ∨ root = none) :
    symbolBelongsToPackage (some (aliasTarget sym)) root = true
      ∧ (processExportSymbol o root r sym).reExportedApis = r.reExportedApis := by
  have hbel : symbolBelongsToPackage (some (aliasTarget sym)) root = true := by
    rcases h with h | h
    · cases root with
      | none => rfl
      | some rt => simp [symbolBelongsToPackage, h]
    · subst h
      rfl
  refine ⟨hbel, ?_⟩
  by_cases hname : jsStartsWith sym.core.name ("__".data) = true
  · unfold processExportSymbol
    rw [hname]
    rfl
  · rw [Bool.not_eq_true] at hname
    rw [processExportSymbol_reExportedApis o root r sym hname, if_pos hbel]

/-- A symbol whose alias-resolved target has no declaration sites at all. -/
def declarationFreeSymbol : TsSymbol :=
  { core :=
      { name := "N".data
        declarations := []
        hasValueFlag := true
        hasTypeFlag := false
        docComments := [] }
    isAliasFlag := false
    aliasedTarget := none }

/-- Witness for claim C10 at `declarationFreeSymbol` with an available
package root: the origin test reports internal and the registry stays
empty. -/
theorem no_declarations_or_no_root_is_internal_witness :
    symbolBelongsToPackage (some (aliasTarget declarationFreeSymbol))
        (some ("/pkg".data)) = true
      ∧ (processExportSymbol (fun _ => false) (some ("/pkg".data)) emptyResults
          declarationFreeSymbol).reExportedApis = emptyResults.reExportedApis :=
  no_declarations_or_no_root_is_internal (fun _ => false) (some ("/pkg".data))
    emptyResults declarationFreeSymbol (Or.inl rfl)

/-! ## Origin classification (claim C1) -/

/-- The claim's literal external condition, word for word: no declaration
site lives under the package root, or some declaration site lies under a
node_modules directory. -/
def claimExternalCondition (root : JsString) (decls : List TsDeclaration) : Bool :=
  decls.all (fun d => !(jsStartsWith d.fileName root)) ||
    decls.any (fun d => jsIncludes d.fileName nodeModulesSegment)

/-- Declaration sites of the counterexample symbol: one site outside the
package root inside a dependency's node_modules tree, one site inside the
package root outside node_modules. -/
def mixedDecls : List TsDeclaration :=
  [⟨.otherDeclaration, "/vendor/node_modules/dep/a.js".data⟩,
   ⟨.otherDeclaration, "/pkg/src/b.ts".data⟩]

/-- The counterexample symbol for claim C1. -/
def mixedSymbol : TsSymbol :=
  { core :=
      { name := "M".data
        declarations := mixedDecls
        hasValueFlag := true
        hasTypeFlag := false
        docComments := [] }
    isAliasFlag := false
    aliasedTarget := none }

/-- Counterexample to claim C1 as stated: for the symbol `M` with one
declaration site at `/vendor/node_modules/dep/a.js` (a node_modules site)
and one at `/pkg/src/b.ts` (under the package root `/pkg`), the claim's
condition — no site under the root, or some site under node_modules — is
true, yet the code classifies the symbol as belonging to the package and
does not add it to the externally-originated registry. -/
theorem external_origin_counterexample :
    claimExternalCondition ("/pkg".data) mixedDecls = true
      ∧ symbolBelongsToPackage (some mixedSymbol.core) (some ("/pkg".data)) = true
      ∧ (processExportSymbol (fun _ => false) (some ("/pkg".data)) emptyResults
          mixedSymbol).reExportedApis = [] := by
  refine ⟨by decide, by decide, ?_⟩
  rw [processExportSymbol_reExportedApis (fun _ => false) (some ("/pkg".data))
    emptyResults mixedSymbol (by decide), if_pos (by decide)]
  rfl

/-- Claim C1, amended: with the package root available, the alias-resolved
symbol is classified external — and its name recorded in the
externally-originated registry — exactly when it has at least one
declaration site and every declaration site either does not lie under the
package root or lies under a node_modules directory; otherwise it is
internal and the registry is unchanged. -/
theorem external_origin_amended (o : JsString → Bool) (root : JsString)
    (r : Results) (sym : TsSymbol)
    (hname : jsStartsWith sym.core.name ("__".data) = false) :
    (symbolBelongsToPackage (some (aliasTarget sym)) (some root) = false ↔
      ((aliasTarget sym).declarations ≠ [] ∧
        ∀ decl ∈ (aliasTarget sym).declarations,
          (jsStartsWith decl.fileName root = false ∨
            jsIncludes decl.fileName nodeModulesSegment = true)))
    ∧ (processExportSymbol o (some root) r sym).reExportedApis
      = (if symbolBelongsToPackage (some (aliasTarget sym)) (some root) = true
          then r.reExportedApis else setAdd r.reExportedApis sym.core.name) := by
  refine ⟨?_, processExportSymbol_reExportedApis o (some root) r sym hname⟩
  have hred : symbolBelongsToPackage (some (aliasTarget sym)) (some root)
      = if (aliasTarget sym).declarations.isEmpty then true
        else (aliasTarget sym).declarations.any fun decl =>
          jsStartsWith decl.fileName root
            && !(jsIncludes decl.fileName nodeModulesSegment) := rfl
  rw [hred]
  by_cases hd : (aliasTarget sym).declarations.isEmpty
  · rw [if_pos hd]
    rw [List.isEmpty_iff] at hd
    simp [hd]
  · rw [if_neg hd]
    rw [Bool.not_eq_true, List.isEmpty_eq_false_iff_exists_mem] at hd
    obtain ⟨x, hx⟩ := hd
    rw [List.any_eq_false]
    constructor
    · intro h
      refine ⟨fun hnil => by simp [hnil] at hx, fun decl hdecl => ?_⟩
      have := h decl hdecl
      rcases hs : jsStartsWith decl.fileName root with _ | _
      · exact Or.inl rfl
      · right
        rcases hi : jsIncludes decl.fileName nodeModulesSegment with _ | _
        · rw [hs, hi] at this
          simp at this
        · rfl
    · intro h decl hdecl
      rcases (h.2 decl hdecl) with hs | hi
      · simp [hs]
      · simp [hi]

/-- A symbol whose single declaration site is outside the package root. -/
def externalDeclSymbol : TsSymbol :=
  { core :=
      { name := "E".data
        declarations := [⟨.otherDeclaration, "/elsewhere/a.js".data⟩]
        hasValueFlag := true
        hasTypeFlag := false
        docComments := [] }
    isAliasFlag := false
    aliasedTarget := none }

/-- Witness for the amended claim C1 at `externalDeclSymbol` and package
root `/pkg`. -/
theorem external_origin_amended_witness :
    (symbolBelongsToPackage (some (aliasTarget externalDeclSymbol))
        (some ("/pkg".data)) = false ↔
      ((aliasTarget externalDeclSymbol).declarations ≠ [] ∧
        ∀ decl ∈ (aliasTarget externalDeclSymbol).declarations,
          (jsStartsWith decl.fileName ("/pkg".data) = false ∨
            jsIncludes decl.fileName nodeModulesSegment = true)))
    ∧ (processExportSymbol (fun _ => false) (some ("/pkg".data)) emptyResults
        externalDeclSymbol).reExportedApis
      = (if symbolBelongsToPackage (some (aliasTarget externalDeclSymbol))
            (some ("/pkg".data)) = true
          then emptyResults.reExportedApis
          else setAdd emptyResults.reExportedApis externalDeclSymbol.core.name) :=
  external_origin_amended (fun _ => false) ("/pkg".data) emptyResults
    externalDeclSymbol (by decide)

/-! ## Phase ordering theorem (claim C6) -/

/-- Claim C6 fails on the code: because the line-387 call of
`processExposesObject` is not awaited, there is an execution order
consistent with every happens-before edge the code establishes in which
the traversal loop dequeues its first worklist item before the exposure
target is enqueued — the configuration-scanning phase and the traversal
interleave.  (With the edge an `await` would add, as on the explicit-mode
path of line 504, this order would be ruled out.) -/
theorem discovery_scan_can_interleave_with_traversal :
    validMfSchedule mfHappensBefore
        [.exposureScanStart, .mfParseDone, .firstDequeue, .exposureTargetEnqueue]
      ∧ List.indexOf MfAction.firstDequeue
          [MfAction.exposureScanStart, .mfParseDone, .firstDequeue,
            .exposureTargetEnqueue]
        < List.indexOf MfAction.exposureTargetEnqueue
          [MfAction.exposureScanStart, .mfParseDone, .firstDequeue,
            .exposureTargetEnqueue] := by
  constructor
  · constructor
    · decide
    · decide
  · decide

end CountDocs
